import Mathlib

/-!
# A shallow embedding of `src/book.py`

This file models the core of the book tool in `src/book.py`: the frontmatter
codec, the metadata (frontmatter) updater, the page-graph builder with its
prev/next threading pass, the table-of-contents generator, and the
restructuring commands (split, reorder, move, new page), plus the word-count
statistics.

Modelling conventions:

* A Python `str` that is handled line-by-line (file contents, document bodies)
  is modelled as `List Line` with `Line := List Char`: one element per line,
  newline terminators left implicit.  `print(s, file=f)` appends the lines of
  `s` followed by one newline, so a file written by the tool corresponds
  exactly to its list of lines; `''.splitlines() == []` and
  `print('')` writing a single empty line are both reproduced
  (see `print_str_lines`).
* Simple names (chapter entries, titles, page names) are plain `String`s.
* Filesystem paths handled by `os.path` (`join`, `dirname`, `relpath`,
  `normpath`) are modelled as lists of path components (`PPath`), absolute
  with respect to an implicit root.  The filesystem itself, where a function
  probes it, is passed in explicitly as the list of existing files.
* The external TOML library is a black box in the source's design; functions
  that parse or dump frontmatter are parametrised by the codec
  (`parse`/`dumps`).  Where only the effective title matters
  (`update_frontmatter`), frontmatter is a flat association list
  `List (String × String)` with `toml_set`/`get_toml` reproducing Python dict
  insertion-order update, and dict equality standing for equality of the
  (injective, order-preserving) TOML dump used by the source's comparison.
* Python exceptions and early `return`s are modelled with `Option`/`Except`.
* The markdown image regex pass (`re_image.finditer`/`re_image.sub`) is
  modelled on a body that is a list of items, each either plain text or an
  image reference `![alt](url)`.
-/

namespace BookPy

/-! ## Lines and Python string helpers -/

/-- One line of a Python `str`, as a list of characters (no newline). -/
abbrev Line := List Char

/-- `FRONTMATTER_SEPERATOR_CHAR = '+'` (book.py line 76). -/
def FRONTMATTER_SEPERATOR_CHAR : Char := '+'

/-- `FRONTMATTER_SEPERATOR_MIN_LENGTH = 3` (book.py line 77). -/
def FRONTMATTER_SEPERATOR_MIN_LENGTH : Nat := 3

/-- `TOC_INDEX = 'toc.md'` (book.py line 58). -/
def TOC_INDEX : String := "toc.md"

/-- `TOC_HTML_BODY = '__toc_html_body__'` (book.py line 61). -/
def TOC_HTML_BODY : String := "__toc_html_body__"

/-- Python `line.strip()` on one line. -/
def line_strip (l : Line) : Line :=
  ((l.dropWhile Char.isWhitespace).reverse.dropWhile Char.isWhitespace).reverse

/-- Python `line.rstrip()` on one line. -/
def line_rstrip (l : Line) : Line :=
  (l.reverse.dropWhile Char.isWhitespace).reverse

/-- A line consisting only of whitespace (so `line.strip()` is empty). -/
def line_blank (l : Line) : Bool := l.all Char.isWhitespace

/-- Python `s.rstrip()` applied to a multi-line string given as its lines:
trailing all-whitespace lines disappear and the last remaining line loses its
trailing whitespace. -/
def rstrip_lines (b : List Line) : List Line :=
  match b.reverse.dropWhile line_blank with
  | [] => []
  | l :: rest => (line_rstrip l :: rest).reverse

/-- The lines that `print(s, file=f)` writes for a string `s` given as its
lines: an empty string still produces one (empty) line. -/
def print_str_lines (ls : List Line) : List Line :=
  if ls.isEmpty then [[]] else ls

/-! ## Frontmatter codec (book.py lines 93-135) -/

/-- The separator test from `read_frontmatter_file` (book.py line 103):
`s = line.strip()` and then
`len(s) >= FRONTMATTER_SEPERATOR_MIN_LENGTH and len(s) * FRONTMATTER_SEPERATOR_CHAR == s`. -/
def is_frontmatter_separator (line : Line) : Bool :=
  let s := line_strip line
  decide (FRONTMATTER_SEPERATOR_MIN_LENGTH ≤ s.length)
    && s == List.replicate s.length FRONTMATTER_SEPERATOR_CHAR

/-- The line `FRONTMATTER_SEPERATOR_CHAR * FRONTMATTER_SEPERATOR_MIN_LENGTH`
printed by `write_frontmatter_file` (book.py line 134). -/
def separator_line : Line :=
  List.replicate FRONTMATTER_SEPERATOR_MIN_LENGTH FRONTMATTER_SEPERATOR_CHAR

/-- The line loop of `read_frontmatter_file` (book.py lines 100-108): lines
before the first separator accumulate in `first`, every line after it in
`second`; the `Option` records whether a separator was seen. -/
def read_fm_split : List Line → List Line × Option (List Line)
  | [] => ([], none)
  | l :: rest =>
    if is_frontmatter_separator l then ([], some rest)
    else
      let r := read_fm_split rest
      (l :: r.1, r.2)

/-- `read_frontmatter_file` (book.py lines 93-117) on the lines of an existing
file, parametrised by the TOML parser.  With a separator the header is parsed
(a parse failure yields the empty mapping `empty`, book.py lines 110-114);
without one the whole file is body and the frontmatter is `none`. -/
def read_frontmatter_file {Fm : Type} (parse : List Line → Option Fm) (empty : Fm)
    (lines : List Line) : Option Fm × List Line :=
  match read_fm_split lines with
  | (first, none) => (none, first)
  | (first, some second) => (some ((parse first).getD empty), second)

/-- `write_frontmatter_file` (book.py lines 127-135), parametrised by the TOML
dumper (`dumps m` are the lines of `toml.dumps(m)`).  The function prints
`toml.dumps(frontmatter).rstrip()`, then the separator line, then
`content.rstrip()`; the result is the list of lines of the written file. -/
def write_frontmatter_file {Fm : Type} (dumps : Fm → List Line)
    (frontmatter : Option Fm) (content : List Line) : List Line :=
  match frontmatter with
  | some m =>
      print_str_lines (rstrip_lines (dumps m)) ++ separator_line ::
        print_str_lines (rstrip_lines content)
  | none => print_str_lines (rstrip_lines content)

/-! A small concrete frontmatter codec (`key=value` per line), standing in for
the external TOML library when the parametrised codec has to be instantiated
on concrete data. -/

/-- Dump one `key=value` pair as a line. -/
def demo_dump_line (kv : String × String) : Line := kv.1.data ++ '=' :: kv.2.data

/-- Parse one `key=value` line. -/
def demo_parse_line (l : Line) : Option (String × String) :=
  match l.span (· ≠ '=') with
  | (k, '=' :: v) => some (⟨k⟩, ⟨v⟩)
  | _ => none

/-- Dump a flat map, one line per pair. -/
def demo_dumps (m : List (String × String)) : List Line := m.map demo_dump_line

/-- Parse a flat map, one line per pair. -/
def demo_parse (ls : List Line) : Option (List (String × String)) :=
  ls.mapM demo_parse_line

/-! ## Frontmatter maps and the metadata updater (book.py lines 471-522) -/

/-- `get_toml(toml_data, key, missing)` (book.py lines 252-258) for a present
mapping, on a flat association list. -/
def get_toml (m : List (String × String)) (key missing : String) : String :=
  match m.lookup key with
  | some v => v
  | none => missing

/-- Python dict assignment `m[key] = v` on a flat association list: replace
the value in place if the key is present, else append at the end (insertion
order, as preserved by `toml.dumps`). -/
def toml_set : List (String × String) → String → String → List (String × String)
  | [], key, v => [(key, v)]
  | (k, w) :: rest, key, v =>
      if k = key then (k, v) :: rest else (k, w) :: toml_set rest key v

/-- `TOML_GENERAL_TITLE = 'title'` (book.py line 374). -/
def TOML_GENERAL_TITLE : String := "title"

/-- `strip_empty_start` (book.py lines 471-481): drop leading blank lines. -/
def strip_empty_start : List Line → List Line
  | [] => []
  | l :: rest =>
      if (line_strip l).length = 0 then strip_empty_start rest else l :: rest

/-- `strip_empty` (book.py lines 484-490): strip blank lines at the end
(reverse, strip start, reverse) and then at the start. -/
def strip_empty (lines : List Line) : List Line :=
  strip_empty_start (strip_empty_start lines.reverse).reverse

/-- One stored markdown file, as `read_frontmatter_file` reports it: optional
frontmatter and the body's lines. -/
structure FileData where
  fm : Option (List (String × String))
  content : List Line
deriving DecidableEq

/-- The content assembled by `update_frontmatter` before writing (book.py
lines 510-513): `cc = strip_empty(content.splitlines())`, the extra content is
appended after one blank line when present, and the result is stripped again. -/
def write_cc (content : List Line) (extra_content : Option (List Line)) : List Line :=
  let cc := strip_empty content
  let cc := match extra_content with
    | some e => cc ++ [[]] ++ strip_empty e
    | none => cc
  strip_empty cc

/-- `update_frontmatter` (book.py lines 493-514) on the stored file at
`chapter_path` (`none` when the file is missing, in which case the read with
`missing_is_error=False` yields no frontmatter and empty content).
`guess_title` is the resolved `GuessedData` title for the path.  Returns the
file afterwards and whether it was written. -/
def update_frontmatter (file : Option FileData) (guess_title : String)
    (extra_content : Option (List Line)) : Option FileData × Bool :=
  let fm0 := match file with | none => none | some fd => fd.fm
  let content := match file with | none => [] | some fd => fd.content
  match fm0 with
  | none =>
      let frontmatter := toml_set [] TOML_GENERAL_TITLE guess_title
      (some ⟨some frontmatter, write_cc content extra_content⟩, true)
  | some f =>
      let title := get_toml f TOML_GENERAL_TITLE guess_title
      let frontmatter := toml_set f TOML_GENERAL_TITLE title
      if ¬ f = frontmatter ∨ ¬ extra_content = none then
        (some ⟨some frontmatter, write_cc content extra_content⟩, true)
      else (file, false)

/-- The files of one chapter folder that `Chapter.update_frontmatters`
touches: the chapter's `index.md` and the file behind each entry of the entry
list.  Entries that name section folders are not representable here: on such
an entry the source opens the folder path for writing and crashes, so no tree
containing one survives a first run. -/
structure ChapterFiles where
  index_file : Option FileData
  entries : List (String × Option FileData)
deriving DecidableEq

/-- `Chapter.update_frontmatters` (book.py lines 612-626): the index file is
updated with `extra_content=''` when the folder is a book root
(`update_frontmatter_index`) and with no extra content otherwise
(`update_frontmatter_chapter`); then every entry's file is updated with no
extra content.  `index_guess`/`entry_guess` supply the `GuessedData` titles.
Returns the chapter files afterwards and how many files were written. -/
def update_frontmatters (is_book : Bool) (index_guess : String)
    (entry_guess : String → String) (st : ChapterFiles) : ChapterFiles × Nat :=
  let idx := update_frontmatter st.index_file index_guess
    (if is_book then some [] else none)
  let entries := st.entries.map fun e =>
    (e.1, update_frontmatter e.2 (entry_guess e.1) none)
  (⟨idx.1, entries.map fun e => (e.1, e.2.1)⟩,
    (if idx.2 then 1 else 0) + (entries.map fun e => if e.2.2 then 1 else 0).sum)

/-! ## Page graph builder (book.py lines 393-422 and 564-598) -/

/-- One chapter entry as `Chapter.generate_pages` resolves it by probing the
filesystem (book.py lines 574-596): an existing page file, the special TOC
entry, a sub-folder with a chapter sidecar (a chapter: its index page's name
plus its own entries), or a broken entry (missing file/folder or missing
sidecar), which is logged and skipped. -/
inductive EntryT : Type where
  | page : String → EntryT
  | toc : EntryT
  | chapter : String → List EntryT → EntryT
  | broken : String → EntryT

mutual

/-- `Chapter.generate_pages` (book.py lines 564-598) restricted to the order
in which Pages are appended to the shared `pages` list: the chapter's root
(index) page first, then each entry in list order, recursing into
sub-chapters.  Pages are identified by their names. -/
def generate_pages : EntryT → List String → List String
  | .page n, pages => pages ++ [n]
  | .toc, pages => pages ++ [TOC_INDEX]
  | .chapter name entries, pages => generate_pages_list entries (pages ++ [name])
  | .broken _, pages => pages

/-- The `for chapter in self.chapters` loop of `generate_pages`. -/
def generate_pages_list : List EntryT → List String → List String
  | [], pages => pages
  | e :: rest, pages => generate_pages_list rest (generate_pages e pages)

end

mutual

/-- Pre-order traversal of an entry tree, following the spec's description:
a chapter's own page first, then its entries in order, recursively. -/
def preorder_traversal : EntryT → List String
  | .page n => [n]
  | .toc => [TOC_INDEX]
  | .chapter name entries => name :: preorder_list entries
  | .broken _ => []

/-- Pre-order traversal of an entry list. -/
def preorder_list : List EntryT → List String
  | [] => []
  | e :: rest => preorder_traversal e ++ preorder_list rest

end

/-- `Page.post_generation` (book.py lines 415-422): a single pass with a
`last_page` accumulator.  For each page the pass records the `prev`/`next`
links that the mutation leaves in place: `prev` is the accumulator, and the
`next` that a later iteration (or none) will assign is the head of the rest. -/
def post_generation {α : Type} : Option α → List α → List (Option α × α × Option α)
  | _, [] => []
  | last, p :: rest => (last, p, rest.head?) :: post_generation (some p) rest

/-- The spec's description of the threading pass: page `i`'s `prev` is page
`i-1`, its `next` is page `i+1`, the first page has no `prev` and the last no
`next`. -/
def thread_spec (l : List String) : List (Option String × String × Option String) :=
  (List.range l.length).map fun i =>
    ((if i = 0 then none else l[i-1]?), l.getD i "", l[i+1]?)

/-- The tree Root → [A, B → [C, D]] from the spec's threading example. -/
def example_tree : EntryT :=
  .chapter "Root" [.page "A", .chapter "B" [.page "C", .page "D"]]

/-! ## Table-of-contents generator (book.py lines 630-646) -/

/-- The fields of a `Page` that `generate_toc` inspects. -/
structure TPage where
  source : String
  html_body : String
deriving DecidableEq

/-- The first loop of `generate_toc` (book.py lines 634-640): `children`
collects the pages seen strictly after a TOC-marker page, and the flag records
whether a marker was seen. -/
def generate_toc_scan (pages : List TPage) : List TPage × Bool :=
  pages.foldl
    (fun st c =>
      let children := if st.2 then st.1 ++ [c] else st.1
      let found := st.2 || (c.html_body == TOC_HTML_BODY)
      (children, found))
    ([], false)

/-- `generate_toc` (book.py lines 630-646) restricted to which pages
contribute an entry: after the scan, `children` falls back to all pages when
it is empty and no marker was found, and each chosen page with a source other
than the index source contributes its `generate_html_list` fragment, in
order. -/
def generate_toc (pages : List TPage) (index_source : String) : List TPage :=
  let scan := generate_toc_scan pages
  let children := if scan.1.length = 0 ∧ scan.2 = false then pages else scan.1
  children.filter fun p => p.source ≠ index_source

/-- The pages the claim says are included: exactly those after the first
TOC-marker page when one exists, else all pages except the index page. -/
def toc_claimed_included (pages : List TPage) (index_source : String) : List TPage :=
  if pages.any fun p => p.html_body == TOC_HTML_BODY then
    pages.drop ((pages.findIdx fun p => p.html_body == TOC_HTML_BODY) + 1)
  else
    pages.filter fun p => p.source ≠ index_source

/-- The amended description: as claimed, except that pages whose source is
the index source are filtered out in the marker branch as well. -/
def toc_amended_included (pages : List TPage) (index_source : String) : List TPage :=
  (if pages.any fun p => p.html_body == TOC_HTML_BODY then
     pages.drop ((pages.findIdx fun p => p.html_body == TOC_HTML_BODY) + 1)
   else pages).filter fun p => p.source ≠ index_source

/-! ## Slugs, new pages and splitting the book index
(book.py lines 882-918 and 978-1022) -/

/-- Python `t.replace(a, b)` for single characters. -/
def replace_char (s : List Char) (a b : Char) : List Char :=
  s.map fun c => if c = a then b else c

/-- Python `t.replace(a, '')` for a single character. -/
def remove_char (s : List Char) (a : Char) : List Char :=
  s.filter fun c => c ≠ a

/-- `name_from_title` (book.py lines 882-894); `t.lower()` is the
character-wise lowering of the title. -/
def name_from_title (t : String) : String :=
  let s := t.data.map Char.toLower
  let s := replace_char s ' ' '_'
  let s := remove_char s '.'
  let s := remove_char s '*'
  let s := remove_char s ':'
  let s := remove_char s ','
  let s := remove_char s '('
  let s := remove_char s ')'
  let s := remove_char s '?'
  let s := replace_char s '/' '-'
  ⟨s⟩

/-- The file name `name_from_title(title) + '.md'` used by `new_page`
(book.py line 898). -/
def page_file_name (title : String) : String := name_from_title title ++ ".md"

/-- `new_page` (book.py lines 897-905) over the book folder's existing files
`fs` and the entry list `chapters`: an existing file is left alone and
reported as `false`; otherwise the file is created, the entry is added (at
the start when `add_at_start`), and the result is `true`. -/
def new_page (fs : List String) (chapters : List String) (title : String)
    (add_at_start : Bool) : List String × List String × Bool :=
  let chapter := page_file_name title
  if chapter ∈ fs then (fs, chapters, false)
  else (chapter :: fs,
    (if add_at_start then chapter :: chapters else chapters ++ [chapter]), true)

/-- The book-index branch of `handle_split_markdown` (book.py lines
1013-1022) restricted to its effect on the existing files and the entry list:
`titles` are the extracted page headers in the order they were encountered in
the source document; unless the book contains only the TOC marker the list is
reversed and each page is inserted at the start. -/
def handle_split_index (fs : List String) (chapters : List String)
    (titles : List String) : List String × List String :=
  let book_has_only_toc := chapters.length == 1 && chapters.contains TOC_INDEX
  let ps := if !book_has_only_toc then titles.reverse else titles
  ps.foldl
    (fun st title =>
      let r := new_page st.1 st.2 title (!book_has_only_toc)
      (r.1, r.2.1))
    (fs, chapters)

/-! ## Reorder (book.py lines 740-785) -/

/-- The `where` argument of the reorder command, restricted by `argparse`
to `last`, `after_toc` and `before_toc` (book.py line 1265). -/
inductive ReorderWhere : Type where
  | last : ReorderWhere
  | after_toc : ReorderWhere
  | before_toc : ReorderWhere
deriving DecidableEq

/-- A Python exception escaping the command. -/
inductive PyRunError : Type where
  | attribute_error : PyRunError
deriving DecidableEq

/-- The placement step of `handle_reorder` (book.py lines 763-781) for one
already-removed chapter.  In the `after_toc`/`before_toc` modes without a TOC
entry the source executes `book.chapters.add(chapter)`, and Python lists have
no `add` method: the call raises `AttributeError`. -/
def reorder_insert (wh : ReorderWhere) (chapters : List String)
    (chapter : String) : Except PyRunError (List String) :=
  match wh with
  | .last => .ok (chapters ++ [chapter])
  | .after_toc =>
      if TOC_INDEX ∈ chapters then
        .ok (chapters.insertIdx (chapters.indexOf TOC_INDEX + 1) chapter)
      else .error .attribute_error
  | .before_toc =>
      if TOC_INDEX ∈ chapters then
        .ok (chapters.insertIdx (chapters.indexOf TOC_INDEX) chapter)
      else .error .attribute_error

/-- The `for chapter in args.chapters` loop of `handle_reorder` (book.py
lines 753-781).  A chapter missing from the book logs an error and returns
from the handler before saving, leaving the stored list `book0`; each found
chapter is removed (`list.remove`) and re-inserted. -/
def handle_reorder_loop (book0 : List String) (wh : ReorderWhere) :
    List String → List String → Except PyRunError (List String)
  | book, [] => .ok book
  | book, ch :: rest =>
      if ch ∈ book then
        match reorder_insert wh (book.erase ch) ch with
        | .ok b => handle_reorder_loop book0 wh b rest
        | .error e => .error e
      else .ok book0

/-- `handle_reorder` (book.py lines 744-785) on the stored entry list:
`after_toc` first reverses the argument list; the result is the entry list on
disk after the command, or the exception that escaped it. -/
def handle_reorder (wh : ReorderWhere) (arg_chapters : List String)
    (book : List String) : Except PyRunError (List String) :=
  let cs := if wh = ReorderWhere.after_toc then arg_chapters.reverse else arg_chapters
  handle_reorder_loop book wh book cs

/-! ## Paths, image references, move (book.py lines 269-297, 788-814, 962-975) -/

/-- A filesystem path as its list of components, absolute with respect to an
implicit root. -/
abbrev PPath := List String

/-- One step of `os.path.normpath` resolution over a stack of kept
components: `.` and empty components vanish, `..` pops (clamped at the root,
as for absolute paths), anything else is kept. -/
def norm_step (stack : List String) (c : String) : List String :=
  if c = "" ∨ c = "." then stack
  else if c = ".." then stack.tail
  else c :: stack

/-- `os.path.normpath` on an absolute path given as components. -/
def normalize (p : PPath) : PPath := (p.foldl norm_step []).reverse

/-- The length of the common prefix of two component lists, as
`os.path.commonprefix` computes it inside `os.path.relpath`. -/
def common_len : List String → List String → Nat
  | a :: as, b :: bs => if a = b then common_len as bs + 1 else 0
  | _, _ => 0

/-- `os.path.relpath(path, start)`: both arguments are made absolute and
normalised, the common prefix is dropped, and one `..` is emitted for each
remaining component of `start`. -/
def relpath (path start : PPath) : PPath :=
  let p := normalize path
  let s := normalize start
  let c := common_len p s
  List.replicate (s.length - c) ".." ++ p.drop c

/-- `os.path.dirname` on a path given as components. -/
def dirname (p : PPath) : PPath := p.dropLast

/-- `make_relative` (book.py lines 269-272): `dst` relative to the folder of
`src`. -/
def make_relative (src dst : PPath) : PPath := relpath dst (dirname src)

/-- One item of a markdown body as the image regex pass sees it: plain text,
or an image reference `![alt](url)` whose url is a (relative) path. -/
inductive MdItem : Type where
  | text : String → MdItem
  | image : String → PPath → MdItem
deriving DecidableEq

/-- `list_images_in_markdown` (book.py lines 280-282): the urls of the image
references, in order. -/
def list_images_in_markdown (md : List MdItem) : List PPath :=
  md.filterMap fun item =>
    match item with
    | .image _ url => some url
    | .text _ => none

/-- `replace_image_in_markdown` (book.py lines 285-297): every image whose
url is a key of `replacements` is rewritten to the mapped target made
relative to `path`; other images and text are left unchanged. -/
def replace_image_in_markdown (md : List MdItem) (path : PPath)
    (replacements : List (PPath × PPath)) : List MdItem :=
  md.map fun item =>
    match item with
    | .text s => .text s
    | .image alt url =>
        match replacements.lookup url with
        | some target => .image alt (make_relative path target)
        | none => .image alt url

/-- `update_images` (book.py lines 962-975): `fs` is the list of existing
files (normalised).  Each image url joined onto the folder of `from_path`
that names an existing file is mapped to that joined path; missing targets
are logged and skipped.  The body is then rewritten relative to `to_path`. -/
def update_images (fs : List PPath) (from_path to_path : PPath)
    (md : List MdItem) : List MdItem :=
  let from_folder := dirname from_path
  let replacements := (list_images_in_markdown md).filterMap fun url =>
    if normalize (from_folder ++ url) ∈ fs then some (url, from_folder ++ url)
    else none
  replace_image_in_markdown md to_path replacements

/-- A stored markdown file for the move command: frontmatter and body. -/
abbrev FileC := Option (List (String × String)) × List MdItem

/-- One iteration of `handle_move` (book.py lines 788-814) for the page file
`chapter` in `srcFolder`, moved to `destFolder`: `dest`/`src` are the two
chapters' entry lists and `files` the stored files.  The source checks
membership in the source chapter's list (logging and returning on a miss),
reads the file, removes it, rewrites its image references, writes it at the
destination and appends the entry to the destination list only. -/
def handle_move_one (destFolder srcFolder : PPath) (dest src : List String)
    (files : List (PPath × FileC)) (chapter : String) :
    Option (List String × List String × List (PPath × FileC)) :=
  if chapter ∈ src then
    let path := srcFolder ++ [chapter]
    match files.lookup path with
    | none => none
    | some fc =>
        let files1 := files.filter fun f => f.1 ≠ path
        let new_path := destFolder ++ [chapter]
        let content := update_images (files1.map fun f => normalize f.1)
          path new_path fc.2
        some (dest ++ [chapter], src, files1 ++ [(new_path, (fc.1, content))])
  else none

/-! ## Word-count statistics (book.py lines 310-339) -/

/-- `len(contents.split(None))`: the number of maximal non-whitespace runs. -/
def word_count (contents : Line) : Nat :=
  (contents.foldl
    (fun (st : Nat × Bool) c =>
      if c.isWhitespace then (st.1, false)
      else if st.2 then st else (st.1 + 1, true))
    (0, false)).1

/-- The counters of `Stat` (book.py lines 310-314). -/
structure Stat where
  num_chapters : Nat
  empty_chapters : Nat
  total_words : Nat
deriving DecidableEq

/-- `Stat.__init__`: all counters zero. -/
def Stat.init : Stat := ⟨0, 0, 0⟩

/-- The branch structure of `Stat.update` (book.py lines 316-331) given the
computed word count: non-chapter pages only log; chapter pages increment
`num_chapters` and are counted as empty below 50 words, as short below 2000
words, and into `total_words` otherwise. -/
def stat_update (s : Stat) (wc : Nat) (is_chapter : Bool) : Stat :=
  if is_chapter then
    let s := { s with num_chapters := s.num_chapters + 1 }
    if wc < 50 then { s with empty_chapters := s.empty_chapters + 1 }
    else if wc < 2000 then { s with empty_chapters := s.empty_chapters + 1 }
    else { s with total_words := s.total_words + wc }
  else s

/-- `Stat.update` (book.py lines 316-331). -/
def Stat.update (s : Stat) (contents : Line) (is_chapter : Bool) : Stat :=
  stat_update s (word_count contents) is_chapter

/-- `Stat.print_estimate` (book.py lines 333-339): the estimated word count
and the finished percentage that are printed, with Python's true division
modelled in `ℚ`. -/
def print_estimate (s : Stat) : ℚ × ℚ :=
  let valid_chapters : ℤ := (s.num_chapters : ℤ) - (s.empty_chapters : ℤ)
  let average_word_count : ℚ :=
    if 0 < valid_chapters then (s.total_words : ℚ) / (valid_chapters : ℚ) else 0
  let estimated_word_count : ℚ :=
    (s.total_words : ℚ) + (s.empty_chapters : ℚ) * average_word_count
  let percent_finished : ℚ :=
    if 0 < estimated_word_count then
      (s.total_words : ℚ) * 100 / estimated_word_count
    else 0
  (estimated_word_count, percent_finished)

/-- A `Stat` reachable by a run of updates from the initial state. -/
def stat_reachable (s : Stat) : Prop :=
  ∃ l : List (Nat × Bool), s = l.foldl (fun s p => stat_update s p.1 p.2) Stat.init

/-- The spec's completion-estimate formula: zero when there are no counted
pages, else `total / (total + empty × average) × 100` with
`average = total / counted`. -/
def estimate_spec (s : Stat) : ℚ :=
  let valid_chapters : ℤ := (s.num_chapters : ℤ) - (s.empty_chapters : ℤ)
  if 0 < valid_chapters then
    let average : ℚ := (s.total_words : ℚ) / (valid_chapters : ℚ)
    (s.total_words : ℚ) / ((s.total_words : ℚ) + (s.empty_chapters : ℚ) * average)
      * 100
  else 0

/-! ## The new-page command (book.py lines 908-918) -/

/-- `handle_new_page` (book.py lines 908-918): the local `changed` is only
assigned inside `if new_page(...)`; it is modelled as `Option Bool`, `none`
while unassigned.  Reading it unassigned at `if changed:` raises
`UnboundLocalError`. -/
def handle_new_page (fs : List String) (chapters : List String)
    (titles : List String) : Except String (List String × List String) :=
  let r := titles.foldl
    (fun (st : List String × List String × Option Bool) title =>
      let np := new_page st.1 st.2.1 title false
      (np.1, np.2.1, if np.2.2 then some true else st.2.2))
    (fs, chapters, none)
  match r.2.2 with
  | none => .error "UnboundLocalError"
  | some _ => .ok (r.1, r.2.1)

/-! ## General list helpers -/

theorem dropWhile_head_false {α : Type} (p : α → Bool) :
    ∀ (l : List α) (a : α) (t : List α), l.dropWhile p = a :: t → p a = false := by
  intro l
  induction l with
  | nil => intro a t h; simp [List.dropWhile] at h
  | cons x xs ih =>
      intro a t h
      by_cases hx : p x
      · rw [List.dropWhile_cons_of_pos hx] at h
        exact ih a t h
      · rw [List.dropWhile_cons_of_neg hx] at h
        cases h
        simpa using hx

theorem dropWhile_self_of_head_false {α : Type} (p : α → Bool) (a : α) (t : List α)
    (h : p a = false) : (a :: t).dropWhile p = a :: t :=
  List.dropWhile_cons_of_neg (by simp [h])

theorem dropWhile_dropWhile {α : Type} (p : α → Bool) (l : List α) :
    (l.dropWhile p).dropWhile p = l.dropWhile p := by
  cases h : l.dropWhile p with
  | nil => simp
  | cons a t => exact dropWhile_self_of_head_false p a t (dropWhile_head_false p l a t h)

/-! ## Line lemmas -/

theorem line_rstrip_idem (l : Line) : line_rstrip (line_rstrip l) = line_rstrip l := by
  simp [line_rstrip, dropWhile_dropWhile]

theorem line_blank_rstrip (l : Line) : line_blank (line_rstrip l) = line_blank l := by
  have h : l.reverse.all Char.isWhitespace
      = (l.reverse.dropWhile Char.isWhitespace).all Char.isWhitespace := by
    conv_lhs => rw [← List.takeWhile_append_dropWhile Char.isWhitespace l.reverse]
    rw [List.all_append]
    have ht : (l.reverse.takeWhile Char.isWhitespace).all Char.isWhitespace = true :=
      List.all_eq_true.2 fun c hc => List.mem_takeWhile_imp hc
    rw [ht, Bool.true_and]
  simp only [line_blank, line_rstrip, List.all_reverse]
  rw [← h, List.all_reverse]

theorem rstrip_lines_print_rstrip (b : List Line) :
    rstrip_lines (print_str_lines (rstrip_lines b)) = rstrip_lines b := by
  rcases h : b.reverse.dropWhile line_blank with _ | ⟨x, xs⟩
  · have hb : rstrip_lines b = [] := by rw [rstrip_lines, h]
    rw [hb]
    decide
  · have hx : line_blank x = false := dropWhile_head_false _ _ _ _ h
    have hxr : line_blank (line_rstrip x) = false := by rw [line_blank_rstrip]; exact hx
    have hb : rstrip_lines b = (line_rstrip x :: xs).reverse := by
      rw [rstrip_lines, h]
    have hne : ((line_rstrip x :: xs).reverse).isEmpty = false := by
      simp [List.isEmpty_iff]
    rw [hb]
    simp only [print_str_lines, hne, Bool.false_eq_true, if_false]
    rw [rstrip_lines, List.reverse_reverse, dropWhile_self_of_head_false _ _ _ hxr]
    show (line_rstrip (line_rstrip x) :: xs).reverse = (line_rstrip x :: xs).reverse
    rw [line_rstrip_idem]

/-! ## Frontmatter codec lemmas -/

theorem separator_line_is_separator : is_frontmatter_separator separator_line = true := by
  decide

theorem read_fm_split_append (D B : List Line)
    (hD : ∀ l ∈ D, is_frontmatter_separator l = false) :
    read_fm_split (D ++ separator_line :: B) = (D, some B) := by
  induction D with
  | nil => simp [read_fm_split, separator_line_is_separator]
  | cons l D ih =>
      have hl : is_frontmatter_separator l = false := hD l (by simp)
      have hrest : ∀ x ∈ D, is_frontmatter_separator x = false :=
        fun x hx => hD x (by simp [hx])
      simp [read_fm_split, hl, ih hrest]

/-- C1: frontmatter round-trip.  For any frontmatter value `m` whose dumped
and reparsed form is `m` again and whose dumped lines contain no separator
line (as for the TOML codec the source uses), and any body `b`, writing the
file with `write_frontmatter_file` and reading it back with
`read_frontmatter_file` yields exactly the frontmatter `m`, and a body equal
to `b` up to trailing-whitespace normalization (`rstrip_lines`, the spec's
`trim`). -/
theorem frontmatter_roundtrip {Fm : Type} (parse : List Line → Option Fm)
    (dumps : Fm → List Line) (empty : Fm) (m : Fm) (b : List Line)
    (h1 : parse (print_str_lines (rstrip_lines (dumps m))) = some m)
    (h2 : ∀ l ∈ print_str_lines (rstrip_lines (dumps m)),
      is_frontmatter_separator l = false) :
    read_frontmatter_file parse empty (write_frontmatter_file dumps (some m) b)
      = (some m, print_str_lines (rstrip_lines b))
    ∧ rstrip_lines
        (read_frontmatter_file parse empty
          (write_frontmatter_file dumps (some m) b)).2 = rstrip_lines b := by
  have hsplit := read_fm_split_append (print_str_lines (rstrip_lines (dumps m)))
    (print_str_lines (rstrip_lines b)) h2
  have hread : read_frontmatter_file parse empty
      (write_frontmatter_file dumps (some m) b)
      = (some m, print_str_lines (rstrip_lines b)) := by
    rw [write_frontmatter_file, read_frontmatter_file, hsplit]
    show (some ((parse (print_str_lines (rstrip_lines (dumps m)))).getD empty),
      print_str_lines (rstrip_lines b)) = _
    rw [h1]
    rfl
  exact ⟨hread, by rw [hread]; exact rstrip_lines_print_rstrip b⟩

/-- Witness for C1: the hypotheses hold and the round-trip equation is
obtained from `frontmatter_roundtrip` at a concrete frontmatter map and
body. -/
theorem frontmatter_roundtrip_witness :
    (demo_parse (print_str_lines (rstrip_lines (demo_dumps [("title", "hi")])))
        = some [("title", "hi")])
    ∧ read_frontmatter_file demo_parse [] (write_frontmatter_file demo_dumps
        (some [("title", "hi")]) ["body text ".data, "  ".data])
      = (some [("title", "hi")],
         print_str_lines (rstrip_lines ["body text ".data, "  ".data])) :=
  ⟨by decide,
   (frontmatter_roundtrip demo_parse demo_dumps [] [("title", "hi")]
      ["body text ".data, "  ".data] (by decide) (by decide)).1⟩

/-! ## Page graph builder lemmas -/

mutual

theorem generate_pages_eq : ∀ (c : EntryT) (acc : List String),
    generate_pages c acc = acc ++ preorder_traversal c
  | .page n, acc => by simp [generate_pages, preorder_traversal]
  | .toc, acc => by simp [generate_pages, preorder_traversal]
  | .chapter name entries, acc => by
      rw [generate_pages, preorder_traversal,
        generate_pages_list_eq entries (acc ++ [name])]
      simp
  | .broken n, acc => by simp [generate_pages, preorder_traversal]

theorem generate_pages_list_eq : ∀ (es : List EntryT) (acc : List String),
    generate_pages_list es acc = acc ++ preorder_list es
  | [], acc => by simp [generate_pages_list, preorder_list]
  | e :: rest, acc => by
      rw [generate_pages_list, generate_pages_eq e acc,
        generate_pages_list_eq rest (acc ++ preorder_traversal e), preorder_list]
      simp

end

theorem post_generation_eq (l : List String) : ∀ (last : Option String),
    post_generation last l = (List.range l.length).map fun i =>
      ((if i = 0 then last else l[i-1]?), l.getD i "", l[i+1]?) := by
  induction l with
  | nil => intro last; simp [post_generation]
  | cons p rest ih =>
      intro last
      rw [post_generation, ih (some p)]
      rw [List.length_cons, List.range_succ_eq_map, List.map_cons, List.map_map]
      refine congrArg₂ List.cons ?_ ?_
      · have hh : rest.head? = (p :: rest)[0 + 1]? := by
          rw [List.getElem?_cons_succ]
          cases rest <;> simp
        simp [hh]
      · refine List.map_congr_left fun i _ => ?_
        refine congrArg₂ Prod.mk ?_ (congrArg₂ Prod.mk ?_ ?_)
        · cases i with
          | zero => simp
          | succ j => simp
        · simp [List.getD_cons_succ]
        · simp

/-- C2: pre-order prev/next threading.  `generate_pages` emits the pages of
a tree in pre-order; `post_generation` assigns page `i` the previous page
`i-1` and the next page `i+1`, with no `prev` on the first page and no `next`
on the last; and on the tree Root → [A, B → [C, D]] the threaded sequence is
Root, A, B, C, D. -/
theorem pages_preorder_threading :
    (∀ c : EntryT, generate_pages c [] = preorder_traversal c)
    ∧ (∀ l : List String, post_generation none l = thread_spec l)
    ∧ generate_pages example_tree [] = ["Root", "A", "B", "C", "D"]
    ∧ post_generation none (generate_pages example_tree []) =
        [(none, "Root", some "A"), (some "Root", "A", some "B"),
         (some "A", "B", some "C"), (some "B", "C", some "D"),
         (some "C", "D", none)] := by
  refine ⟨fun c => by simpa using generate_pages_eq c [],
    fun l => post_generation_eq l none, by decide, by decide⟩

/-! ## Split-index lemmas -/

theorem split_fold_at_start (L : List String) : ∀ (fs chapters : List String),
    (∀ t ∈ L, page_file_name t ∉ fs) →
    (L.map page_file_name).Nodup →
    L.foldl (fun st title =>
        ((new_page st.1 st.2 title true).1, (new_page st.1 st.2 title true).2.1))
        (fs, chapters)
      = ((L.map page_file_name).reverse ++ fs,
         (L.map page_file_name).reverse ++ chapters) := by
  induction L with
  | nil => intro fs chapters _ _; simp
  | cons t rest ih =>
      intro fs chapters hfresh hnodup
      have hmem : page_file_name t ∉ fs := hfresh t (by simp)
      have hnp : new_page fs chapters t true
          = (page_file_name t :: fs, page_file_name t :: chapters, true) := by
        simp [new_page, hmem]
      rw [List.foldl_cons, hnp]
      have hfresh2 : ∀ u ∈ rest, page_file_name u ∉ page_file_name t :: fs := by
        intro u hu
        simp only [List.mem_cons, not_or]
        refine ⟨?_, hfresh u (by simp [hu])⟩
        intro hequ
        have : page_file_name t ∈ rest.map page_file_name :=
          hequ ▸ List.mem_map_of_mem page_file_name hu
        simp only [List.map_cons, List.nodup_cons] at hnodup
        exact hnodup.1 this
      have hnodup2 : (rest.map page_file_name).Nodup := by
        simp only [List.map_cons, List.nodup_cons] at hnodup
        exact hnodup.2
      rw [ih (page_file_name t :: fs) (page_file_name t :: chapters) hfresh2 hnodup2]
      simp

/-- C3 counterexample: splitting the index of a populated book (an entry list
with entries besides the TOC marker) on headers encountered in the order
First, Second leaves the new pages at the start of the entry list in
encounter order, not reversed. -/
theorem split_index_not_reversed :
    (handle_split_index [] ["toc.md", "old.md"] ["First", "Second"]).2
      = ["first.md", "second.md", "toc.md", "old.md"]
    ∧ (handle_split_index [] ["toc.md", "old.md"] ["First", "Second"]).2
      ≠ ["second.md", "first.md", "toc.md", "old.md"] := by
  decide

/-- C3 (amended): splitting the index of a populated book inserts the new
pages at the start of the entry list so that their final order equals the
order their headers were encountered — the loop iterates the reversed page
list, which compensates the repeated insert-at-start — provided the new page
files are fresh and have pairwise distinct slugs. -/
theorem split_index_populated (fs chapters titles : List String)
    (hpop : ¬ (chapters.length = 1 ∧ TOC_INDEX ∈ chapters))
    (hfresh : ∀ t ∈ titles, page_file_name t ∉ fs)
    (hnodup : (titles.map page_file_name).Nodup) :
    handle_split_index fs chapters titles
      = (titles.map page_file_name ++ fs, titles.map page_file_name ++ chapters) := by
  have hb : (chapters.length == 1 && chapters.contains TOC_INDEX) = false := by
    rcases Bool.eq_false_or_eq_true (chapters.length == 1 && chapters.contains TOC_INDEX)
      with h | h
    · exfalso
      apply hpop
      simp at h
      exact h
    · exact h
  have hfresh2 : ∀ t ∈ titles.reverse, page_file_name t ∉ fs := by
    intro t ht; exact hfresh t (List.mem_reverse.mp ht)
  have hnodup2 : (titles.reverse.map page_file_name).Nodup := by
    rw [List.map_reverse]
    exact List.nodup_reverse.mpr hnodup
  rw [handle_split_index]
  simp only [hb, Bool.not_false, if_true]
  rw [split_fold_at_start titles.reverse fs chapters hfresh2 hnodup2]
  simp

/-- Witness for C3: the amended theorem applied to a concrete populated
book. -/
theorem split_index_populated_witness :
    handle_split_index [] ["toc.md", "old.md"] ["First", "Second"]
      = (["First", "Second"].map page_file_name,
         ["First", "Second"].map page_file_name ++ ["toc.md", "old.md"]) := by
  have h := split_index_populated [] ["toc.md", "old.md"] ["First", "Second"]
    (by decide) (by decide) (by decide)
  simpa using h

/-! ## Reorder -/

/-- C4: the claim says the before/after-TOC reorder modes fall back to
append-last with a warning when the entry list has no TOC marker; the code
instead executes `book.chapters.add(chapter)` there, and Python lists have no
`add` method, so the command dies with `AttributeError` instead of appending. -/
theorem reorder_missing_toc_attribute_error (book : List String) (ch : String)
    (wh : ReorderWhere)
    (hwh : wh = ReorderWhere.before_toc ∨ wh = ReorderWhere.after_toc)
    (hmem : ch ∈ book) (htoc : TOC_INDEX ∉ book) :
    handle_reorder wh [ch] book = .error PyRunError.attribute_error := by
  have htoc2 : TOC_INDEX ∉ book.erase ch := fun h => htoc (List.mem_of_mem_erase h)
  rcases hwh with h | h <;> subst h <;>
    simp [handle_reorder, handle_reorder_loop, hmem, reorder_insert, htoc2]

/-- Witness for C4: the crash at a concrete book with no TOC entry. -/
theorem reorder_missing_toc_attribute_error_witness :
    handle_reorder ReorderWhere.before_toc ["intro.md"] ["intro.md"]
      = .error PyRunError.attribute_error :=
  reorder_missing_toc_attribute_error ["intro.md"] "intro.md"
    ReorderWhere.before_toc (Or.inl rfl) (by decide) (by decide)

/-! ## TOML map lemmas -/

theorem get_toml_toml_set (f : List (String × String)) (k v g : String) :
    get_toml (toml_set f k v) k g = v := by
  induction f with
  | nil => simp [toml_set, get_toml, List.lookup]
  | cons p rest ih =>
      rcases p with ⟨a, b⟩
      by_cases h : a = k
      · subst h
        simp [toml_set, get_toml, List.lookup]
      · have hba : (k == a) = false := beq_eq_false_iff_ne.mpr (Ne.symm h)
        simpa [toml_set, get_toml, List.lookup, h, hba] using ih

theorem toml_set_toml_set (f : List (String × String)) (k v : String) :
    toml_set (toml_set f k v) k v = toml_set f k v := by
  induction f with
  | nil => simp [toml_set]
  | cons p rest ih =>
      rcases p with ⟨a, b⟩
      by_cases h : a = k
      · subst h; simp [toml_set]
      · simp [toml_set, h, ih]

/-! ## strip-empty lemmas -/

theorem strip_empty_start_eq_dropWhile (l : List Line) :
    strip_empty_start l = l.dropWhile fun li => (line_strip li).length == 0 := by
  induction l with
  | nil => rfl
  | cons x xs ih =>
      by_cases h : (line_strip x).length = 0
      · rw [strip_empty_start, if_pos h, ih,
          List.dropWhile_cons_of_pos (by simpa using h)]
      · rw [strip_empty_start, if_neg h,
          List.dropWhile_cons_of_neg (by simpa using h)]

theorem strip_empty_eq (l : List Line) :
    strip_empty l =
      ((l.reverse.dropWhile fun li => (line_strip li).length == 0).reverse).dropWhile
        fun li => (line_strip li).length == 0 := by
  rw [strip_empty, strip_empty_start_eq_dropWhile, strip_empty_start_eq_dropWhile]

theorem strip_empty_idem (l : List Line) :
    strip_empty (strip_empty l) = strip_empty l := by
  rcases h1 : l.reverse.dropWhile (fun li => (line_strip li).length == 0)
    with _ | ⟨x, xs⟩
  · have hl : strip_empty l = [] := by rw [strip_empty_eq, h1]; rfl
    rw [hl]; rfl
  · rcases h2 : ((x :: xs).reverse).dropWhile (fun li => (line_strip li).length == 0)
      with _ | ⟨y, ys⟩
    · have hl : strip_empty l = [] := by rw [strip_empty_eq, h1, h2]
      rw [hl]; rfl
    · have hx := dropWhile_head_false _ _ _ _ h1
      have hy := dropWhile_head_false _ _ _ _ h2
      have hl : strip_empty l = y :: ys := by rw [strip_empty_eq, h1, h2]
      have hsplit : x :: xs = (y :: ys).reverse
          ++ (((x :: xs).reverse).takeWhile
                fun li => (line_strip li).length == 0).reverse := by
        conv_lhs => rw [← List.reverse_reverse (x :: xs)]
        conv_lhs => rw [← List.takeWhile_append_dropWhile
          (fun li => (line_strip li).length == 0) (x :: xs).reverse]
        rw [h2, List.reverse_append]
      rcases hrev : (y :: ys).reverse with _ | ⟨a, Z⟩
      · exact absurd hrev (by simp)
      · rw [hrev] at hsplit
        simp only [List.cons_append] at hsplit
        have hax : x = a := by
          injection hsplit
        rw [hl, strip_empty_eq, hrev,
          dropWhile_self_of_head_false _ _ _ (hax ▸ hx), ← hrev,
          List.reverse_reverse]
        exact dropWhile_self_of_head_false _ _ _ hy

theorem strip_empty_append_nil_line (l : List Line) :
    strip_empty (l ++ [[]]) = strip_empty l := by
  rw [strip_empty_eq, strip_empty_eq, List.reverse_append]
  have hshape : ([[]] : List Line).reverse ++ l.reverse = [] :: l.reverse := rfl
  rw [hshape, List.dropWhile_cons_of_pos (by decide)]

theorem write_cc_none (c : List Line) : write_cc c none = strip_empty c := by
  rw [write_cc]
  exact strip_empty_idem c

theorem write_cc_some_nil (c : List Line) :
    write_cc c (some []) = strip_empty c := by
  rw [write_cc]
  show strip_empty (strip_empty c ++ [[]] ++ strip_empty []) = strip_empty c
  have hnil : strip_empty ([] : List Line) = [] := rfl
  rw [hnil, List.append_nil, strip_empty_append_nil_line, strip_empty_idem]

/-! ## Metadata-update stability -/

theorem update_frontmatter_on_written (f : List (String × String)) (c : List Line)
    (g : String) (e : Option (List Line))
    (hstable : toml_set f TOML_GENERAL_TITLE (get_toml f TOML_GENERAL_TITLE g) = f)
    (hwc : write_cc c e = c) :
    update_frontmatter (some ⟨some f, c⟩) g e = (some ⟨some f, c⟩, e.isSome) := by
  rw [update_frontmatter]
  show (if ¬ f = toml_set f TOML_GENERAL_TITLE (get_toml f TOML_GENERAL_TITLE g)
      ∨ ¬ e = none
    then (some (⟨some (toml_set f TOML_GENERAL_TITLE (get_toml f TOML_GENERAL_TITLE g)),
      write_cc c e⟩ : FileData), true)
    else (some (⟨some f, c⟩ : FileData), false))
    = (some (⟨some f, c⟩ : FileData), e.isSome)
  rw [hstable, hwc]
  rcases e with _ | x
  · rw [if_neg]
    · rfl
    · rintro (h | h) <;> exact h rfl
  · rw [if_pos (Or.inr (by simp))]
    rfl

theorem update_frontmatter_stable (file : Option FileData) (g : String)
    (e : Option (List Line)) (he : e = none ∨ e = some []) :
    update_frontmatter (update_frontmatter file g e).1 g e
      = ((update_frontmatter file g e).1, e.isSome) := by
  have hwc : ∀ c : List Line, write_cc (write_cc c e) e = write_cc c e := by
    intro c
    rcases he with h | h <;> subst h
    · rw [write_cc_none c, write_cc_none (strip_empty c), strip_empty_idem]
    · rw [write_cc_some_nil c, write_cc_some_nil (strip_empty c), strip_empty_idem]
  have hkey : ∀ (f : List (String × String)) (v : String),
      toml_set (toml_set f TOML_GENERAL_TITLE v) TOML_GENERAL_TITLE
        (get_toml (toml_set f TOML_GENERAL_TITLE v) TOML_GENERAL_TITLE g)
        = toml_set f TOML_GENERAL_TITLE v := by
    intro f v
    rw [get_toml_toml_set, toml_set_toml_set]
  rcases file with _ | ⟨fm, content⟩
  · have h1 : update_frontmatter none g e
        = (some ⟨some (toml_set [] TOML_GENERAL_TITLE g), write_cc [] e⟩, true) := by
      rw [update_frontmatter]
    rw [h1]
    exact update_frontmatter_on_written _ _ g e (hkey [] g) (hwc [])
  · rcases fm with _ | f
    · have h1 : update_frontmatter (some ⟨none, content⟩) g e
          = (some ⟨some (toml_set [] TOML_GENERAL_TITLE g), write_cc content e⟩,
             true) := by
        rw [update_frontmatter]
      rw [h1]
      exact update_frontmatter_on_written _ _ g e (hkey [] g) (hwc content)
    · by_cases hw : ¬ f = toml_set f TOML_GENERAL_TITLE (get_toml f TOML_GENERAL_TITLE g)
          ∨ ¬ e = none
      · have h1 : update_frontmatter (some ⟨some f, content⟩) g e
            = (some ⟨some (toml_set f TOML_GENERAL_TITLE
                (get_toml f TOML_GENERAL_TITLE g)), write_cc content e⟩, true) := by
          rw [update_frontmatter]
          show (if ¬ f = toml_set f TOML_GENERAL_TITLE (get_toml f TOML_GENERAL_TITLE g)
              ∨ ¬ e = none then _ else _) = _
          rw [if_pos hw]
        rw [h1]
        exact update_frontmatter_on_written _ _ g e
          (hkey f (get_toml f TOML_GENERAL_TITLE g)) (hwc content)
      · push_neg at hw
        obtain ⟨hf, hee⟩ := hw
        subst hee
        have h1 : update_frontmatter (some ⟨some f, content⟩) g none
            = (some ⟨some f, content⟩, false) := by
          rw [update_frontmatter]
          show (if ¬ f = toml_set f TOML_GENERAL_TITLE (get_toml f TOML_GENERAL_TITLE g)
              ∨ ¬ (none : Option (List Line)) = none then _ else _) = _
          rw [if_neg]
          rintro (h | h)
          · exact h hf
          · exact h rfl
        rw [h1]
        exact h1

theorem sum_map_zero {α : Type} (l : List α) :
    (l.map fun _ => (0 : Nat)).sum = 0 := by
  induction l with
  | nil => rfl
  | cons x xs ih => simp [ih]

/-- C5 counterexample: on a book root whose metadata has already been
updated, a second `update_frontmatters` run still performs a file write (the
book's index file), not zero writes. -/
theorem update_frontmatters_rewrites_index :
    (update_frontmatters true "guess" (fun n => n)
        (update_frontmatters true "guess" (fun n => n)
          ⟨some ⟨some [("title", "t")], []⟩, []⟩).1).2 ≠ 0 := by
  decide

theorem update_frontmatters_unfold (is_book : Bool) (index_guess : String)
    (entry_guess : String → String) (st : ChapterFiles) :
    update_frontmatters is_book index_guess entry_guess st
      = (⟨(update_frontmatter st.index_file index_guess
            (if is_book then some [] else none)).1,
          st.entries.map fun p =>
            (p.1, (update_frontmatter p.2 (entry_guess p.1) none).1)⟩,
         (if (update_frontmatter st.index_file index_guess
              (if is_book then some [] else none)).2 then 1 else 0)
         + (st.entries.map fun p =>
              if (update_frontmatter p.2 (entry_guess p.1) none).2 then 1
              else 0).sum) := by
  rw [update_frontmatters]
  simp only [List.map_map]
  rfl

/-- C5 (amended): the second `update_frontmatters` run changes no file state
and performs no write on any entry file; for a plain chapter folder it
performs zero writes, but for a book root it performs exactly one write — the
book's index file is rewritten (with unchanged contents, as the state
fixpoint shows) — because the index update always passes extra content. -/
theorem update_frontmatters_idempotent (is_book : Bool) (index_guess : String)
    (entry_guess : String → String) (st : ChapterFiles) :
    update_frontmatters is_book index_guess entry_guess
        (update_frontmatters is_book index_guess entry_guess st).1
      = ((update_frontmatters is_book index_guess entry_guess st).1,
          if is_book then 1 else 0) := by
  have he : (if is_book then some ([] : List Line) else none) = none
      ∨ (if is_book then some ([] : List Line) else none) = some [] := by
    cases is_book <;> simp
  have hidx := update_frontmatter_stable st.index_file index_guess _ he
  have hent : ∀ p : String × Option FileData,
      update_frontmatter (update_frontmatter p.2 (entry_guess p.1) none).1
          (entry_guess p.1) none
        = ((update_frontmatter p.2 (entry_guess p.1) none).1, false) :=
    fun p => update_frontmatter_stable p.2 (entry_guess p.1) none (Or.inl rfl)
  have hsome : (if is_book then some ([] : List Line) else none).isSome = is_book := by
    cases is_book <;> rfl
  have hmap : (st.entries.map fun p =>
        (p.1, (update_frontmatter p.2 (entry_guess p.1) none).1)).map
          (fun p => (p.1, (update_frontmatter p.2 (entry_guess p.1) none).1))
      = st.entries.map fun p =>
          (p.1, (update_frontmatter p.2 (entry_guess p.1) none).1) := by
    rw [List.map_map]
    refine List.map_congr_left fun p _ => ?_
    show (p.1, (update_frontmatter (update_frontmatter p.2 (entry_guess p.1) none).1
        (entry_guess p.1) none).1)
      = (p.1, (update_frontmatter p.2 (entry_guess p.1) none).1)
    rw [hent p]
  have hcnt : ((st.entries.map fun p =>
        (p.1, (update_frontmatter p.2 (entry_guess p.1) none).1)).map
          fun p => if (update_frontmatter p.2 (entry_guess p.1) none).2 then 1
            else 0).sum = 0 := by
    rw [List.map_map]
    have hz : ∀ p ∈ st.entries,
        ((fun p => if (update_frontmatter p.2 (entry_guess p.1) none).2 then 1 else 0)
          ∘ fun p => (p.1, (update_frontmatter p.2 (entry_guess p.1) none).1)) p
          = (fun _ => (0 : Nat)) p := by
      intro p _
      show (if (update_frontmatter (update_frontmatter p.2 (entry_guess p.1) none).1
          (entry_guess p.1) none).2 = true then 1 else 0) = 0
      rw [hent p]
      rfl
    rw [List.map_congr_left hz, sum_map_zero]
  rw [update_frontmatters_unfold is_book index_guess entry_guess st,
    update_frontmatters_unfold]
  refine Prod.ext ?_ ?_
  · show (⟨(update_frontmatter (update_frontmatter st.index_file index_guess
        (if is_book then some [] else none)).1 index_guess
        (if is_book then some [] else none)).1, _⟩ : ChapterFiles) = _
    rw [hidx]
    refine congrArg₂ ChapterFiles.mk rfl ?_
    exact hmap
  · show (if (update_frontmatter (update_frontmatter st.index_file index_guess
        (if is_book then some [] else none)).1 index_guess
        (if is_book then some [] else none)).2 = true then 1 else 0)
      + ((st.entries.map fun p =>
          (p.1, (update_frontmatter p.2 (entry_guess p.1) none).1)).map
            fun p => if (update_frontmatter p.2 (entry_guess p.1) none).2 then 1
              else 0).sum
      = if is_book then 1 else 0
    rw [hidx, hcnt]
    show (if (if is_book then some ([] : List Line) else none).isSome = true
      then 1 else 0) + 0 = if is_book then 1 else 0
    rw [hsome]
    cases is_book <;> rfl

/-! ## Table-of-contents lemmas -/

theorem generate_toc_scan_found (l : List TPage) : ∀ acc : List TPage,
    l.foldl
      (fun st c =>
        let children := if st.2 then st.1 ++ [c] else st.1
        let found := st.2 || (c.html_body == TOC_HTML_BODY)
        (children, found))
      (acc, true)
      = (acc ++ l, true) := by
  induction l with
  | nil => intro acc; simp
  | cons x xs ih =>
      intro acc
      rw [List.foldl_cons]
      show xs.foldl _ (acc ++ [x], true) = (acc ++ x :: xs, true)
      rw [ih (acc ++ [x])]
      simp

theorem generate_toc_scan_eq (pages : List TPage) :
    generate_toc_scan pages =
      if pages.any fun p => p.html_body == TOC_HTML_BODY then
        (pages.drop ((pages.findIdx fun p => p.html_body == TOC_HTML_BODY) + 1), true)
      else ([], false) := by
  induction pages with
  | nil => rfl
  | cons x xs ih =>
      by_cases hx : x.html_body == TOC_HTML_BODY
      · rw [generate_toc_scan, List.foldl_cons]
        show xs.foldl _ (if false then [] ++ [x] else [],
          false || (x.html_body == TOC_HTML_BODY)) = _
        rw [hx]
        show xs.foldl _ ([], true) = _
        rw [generate_toc_scan_found xs []]
        rw [if_pos (by simp [hx]), List.findIdx_cons, hx]
        simp
      · have hxf : (x.html_body == TOC_HTML_BODY) = false := by
          simpa using hx
        rw [generate_toc_scan, List.foldl_cons]
        show xs.foldl _ (if false then [] ++ [x] else [],
          false || (x.html_body == TOC_HTML_BODY)) = _
        rw [hxf]
        show xs.foldl _ ([], false) = _
        rw [show xs.foldl
          (fun st c =>
            let children := if st.2 then st.1 ++ [c] else st.1
            let found := st.2 || (c.html_body == TOC_HTML_BODY)
            (children, found)) ([], false) = generate_toc_scan xs from rfl, ih]
        rw [List.any_cons, hxf, Bool.false_or, List.findIdx_cons, hxf]
        by_cases ha : xs.any fun p => p.html_body == TOC_HTML_BODY
        · rw [if_pos ha, if_pos ha]
          simp
        · rw [if_neg ha, if_neg ha]

/-- C6 counterexample: a page list where a page whose source is the index
source follows the TOC sentinel.  The claim says every page after the
sentinel is included, but `generate_toc` also filters out the index-source
page there. -/
theorem generate_toc_not_as_claimed :
    generate_toc [⟨"toc.md", TOC_HTML_BODY⟩, ⟨"index.md", "x"⟩] "index.md"
      ≠ toc_claimed_included [⟨"toc.md", TOC_HTML_BODY⟩, ⟨"index.md", "x"⟩]
          "index.md" := by
  decide

/-- C6 (amended): `generate_toc` includes exactly the pages strictly after
the first TOC-sentinel page when one exists, else all pages — in both cases
additionally excluding any page whose source equals the index source path;
in particular for pages [Index, TOCMarker, A, B] the TOC lists exactly A
and B. -/
theorem generate_toc_filtering :
    (∀ (pages : List TPage) (index_source : String),
      generate_toc pages index_source = toc_amended_included pages index_source)
    ∧ generate_toc [⟨"index.md", "ix"⟩, ⟨"toc.md", TOC_HTML_BODY⟩,
        ⟨"a.md", "a"⟩, ⟨"b.md", "b"⟩] "index.md"
      = [⟨"a.md", "a"⟩, ⟨"b.md", "b"⟩] := by
  constructor
  · intro pages index_source
    rw [generate_toc, toc_amended_included, generate_toc_scan_eq]
    by_cases h : pages.any fun p => p.html_body == TOC_HTML_BODY
    · rw [if_pos h, if_pos h]
      simp
    · rw [if_neg h, if_neg h]
      simp
  · decide

/-! ## Path normalisation lemmas -/

theorem foldl_norm_step_replicate (n : Nat) : ∀ st : List String,
    (List.replicate n "..").foldl norm_step st = st.drop n := by
  induction n with
  | zero => intro st; simp
  | succ m ih =>
      intro st
      rw [List.replicate_succ, List.foldl_cons]
      have hstep : norm_step st ".." = st.tail := by
        rw [norm_step, if_neg (by decide), if_pos rfl]
      rw [hstep, ih, ← List.drop_one, List.drop_drop]
      congr 1
      omega

theorem foldl_norm_step_push (l : List String) : ∀ st : List String,
    (∀ c ∈ l, ¬ c = "" ∧ ¬ c = "." ∧ ¬ c = "..") →
    l.foldl norm_step st = l.reverse ++ st := by
  induction l with
  | nil => intro st _; simp
  | cons c cs ih =>
      intro st hg
      obtain ⟨h1, h2, h3⟩ := hg c (by simp)
      have hstep : norm_step st c = c :: st := by
        rw [norm_step, if_neg (by tauto), if_neg h3]
      rw [List.foldl_cons, hstep, ih (c :: st) (fun d hd => hg d (by simp [hd]))]
      simp

theorem normalize_no_special (p : PPath) : ∀ st : List String,
    (∀ c ∈ st, ¬ c = "" ∧ ¬ c = "." ∧ ¬ c = "..") →
    ∀ c ∈ p.foldl norm_step st, ¬ c = "" ∧ ¬ c = "." ∧ ¬ c = ".." := by
  induction p with
  | nil => intro st hst; simpa using hst
  | cons x xs ih =>
      intro st hst
      rw [List.foldl_cons]
      by_cases h1 : x = "" ∨ x = "."
      · have hstep : norm_step st x = st := by rw [norm_step, if_pos h1]
        rw [hstep]
        exact ih st hst
      · by_cases h2 : x = ".."
        · have hstep : norm_step st x = st.tail := by
            rw [norm_step, if_neg h1, if_pos h2]
          rw [hstep]
          exact ih st.tail fun c hc => hst c (List.mem_of_mem_tail hc)
        · have hstep : norm_step st x = x :: st := by
            rw [norm_step, if_neg h1, if_neg h2]
          rw [hstep]
          refine ih (x :: st) ?_
          intro c hc
          rcases List.mem_cons.mp hc with h | h
          · subst h
            exact ⟨fun he => h1 (Or.inl he), fun he => h1 (Or.inr he), h2⟩
          · exact hst c h

theorem common_len_spec (p : List String) : ∀ s : List String,
    common_len p s ≤ p.length ∧ common_len p s ≤ s.length ∧
      p.take (common_len p s) = s.take (common_len p s) := by
  induction p with
  | nil => intro s; simp [common_len]
  | cons a as ih =>
      intro s
      cases s with
      | nil => simp [common_len]
      | cons b bs =>
          by_cases hab : a = b
          · subst hab
            obtain ⟨ih1, ih2, ih3⟩ := ih bs
            have hcl : common_len (a :: as) (a :: bs) = common_len as bs + 1 := by
              simp [common_len]
            rw [hcl]
            refine ⟨by simpa using ih1, by simpa using ih2, ?_⟩
            rw [List.take_succ_cons, List.take_succ_cons, ih3]
          · simp [common_len, hab]

theorem relpath_correct (path start : PPath) :
    normalize (start ++ relpath path start) = normalize path := by
  obtain ⟨hc1, hc2, hc3⟩ := common_len_spec (normalize path) (normalize start)
  have hgp : ∀ c ∈ normalize path, ¬ c = "" ∧ ¬ c = "." ∧ ¬ c = ".." := fun c hc =>
    normalize_no_special path [] (by simp) c (List.mem_reverse.mp hc)
  show normalize (start ++ (List.replicate ((normalize start).length
      - common_len (normalize path) (normalize start)) ".."
    ++ (normalize path).drop (common_len (normalize path) (normalize start))))
    = normalize path
  rw [normalize, List.foldl_append, List.foldl_append]
  have hsfold : start.foldl norm_step [] = (normalize start).reverse := by
    rw [normalize, List.reverse_reverse]
  rw [hsfold, foldl_norm_step_replicate]
  rw [← List.reverse_take, ← hc3]
  rw [foldl_norm_step_push _ _
    (fun d hd => hgp d (List.mem_of_mem_drop hd))]
  rw [← List.reverse_append, List.reverse_reverse, List.take_append_drop]

/-! ## Image replacement lemmas -/

theorem lookup_replacements (fs : List PPath) (ff : PPath) (urls : List PPath)
    (u : PPath) :
    (urls.filterMap fun url =>
        if normalize (ff ++ url) ∈ fs then some (url, ff ++ url) else none).lookup u
      = if u ∈ urls ∧ normalize (ff ++ u) ∈ fs then some (ff ++ u) else none := by
  induction urls with
  | nil => simp [List.lookup]
  | cons v vs ih =>
      by_cases hP : normalize (ff ++ v) ∈ fs
      · have hstep : (fun url => if normalize (ff ++ url) ∈ fs
            then some (url, ff ++ url) else none) v = some (v, ff ++ v) := by
          simp [hP]
        rw [@List.filterMap_cons_some PPath (PPath × PPath)
          (fun url => if normalize (ff ++ url) ∈ fs then some (url, ff ++ url)
            else none) v vs (v, ff ++ v) hstep]
        by_cases huv : u = v
        · subst huv
          simp [List.lookup, hP]
        · have hbe : (u == v) = false := beq_eq_false_iff_ne.mpr huv
          rw [List.lookup, hbe, ih]
          by_cases hu2 : u ∈ vs ∧ normalize (ff ++ u) ∈ fs
          · rw [if_pos hu2, if_pos ⟨by simp [hu2.1], hu2.2⟩]
          · rw [if_neg hu2, if_neg]
            rintro ⟨hm, hn⟩
            rcases List.mem_cons.mp hm with h | h
            · exact huv h
            · exact hu2 ⟨h, hn⟩
      · have hstep : (fun url => if normalize (ff ++ url) ∈ fs
            then some (url, ff ++ url) else none) v = none := by
          simp [hP]
        rw [@List.filterMap_cons_none PPath (PPath × PPath)
          (fun url => if normalize (ff ++ url) ∈ fs then some (url, ff ++ url)
            else none) v vs hstep, ih]
        by_cases huv : u = v
        · subst huv
          rw [if_neg (fun hc => hP hc.2), if_neg (fun hc => hP hc.2)]
        · by_cases hu2 : u ∈ vs ∧ normalize (ff ++ u) ∈ fs
          · rw [if_pos hu2, if_pos ⟨by simp [hu2.1], hu2.2⟩]
          · rw [if_neg hu2, if_neg]
            rintro ⟨hm, hn⟩
            rcases List.mem_cons.mp hm with h | h
            · exact huv h
            · exact hu2 ⟨h, hn⟩

/-- C7: move image rewriting.  `update_images` rewrites exactly the image
references whose url joined onto the moved page's old folder names an
existing file, replacing the url by the target made relative to the new
location — and such a rewritten reference still resolves, relative to the
new file's folder, to the same file; references whose targets do not exist
on disk are left unchanged. -/
theorem move_image_rewriting (fs : List PPath) (from_path to_path : PPath)
    (md : List MdItem) :
    update_images fs from_path to_path md
      = md.map (fun item =>
          match item with
          | .text s => .text s
          | .image alt url =>
              if normalize (dirname from_path ++ url) ∈ fs then
                .image alt (make_relative to_path (dirname from_path ++ url))
              else .image alt url)
    ∧ ∀ url : PPath,
        normalize (dirname to_path
            ++ make_relative to_path (dirname from_path ++ url))
          = normalize (dirname from_path ++ url) := by
  constructor
  · rw [update_images, replace_image_in_markdown]
    refine List.map_congr_left fun item hitem => ?_
    rcases item with s | ⟨alt, url⟩
    · rfl
    · have humem : url ∈ list_images_in_markdown md := by
        rw [list_images_in_markdown]
        exact List.mem_filterMap.mpr ⟨.image alt url, hitem, rfl⟩
      have hlk := lookup_replacements fs (dirname from_path)
        (list_images_in_markdown md) url
      show (match ((list_images_in_markdown md).filterMap fun u2 =>
          if normalize (dirname from_path ++ u2) ∈ fs
          then some (u2, dirname from_path ++ u2) else none).lookup url with
        | some target => MdItem.image alt (make_relative to_path target)
        | none => MdItem.image alt url)
        = if normalize (dirname from_path ++ url) ∈ fs then
            MdItem.image alt (make_relative to_path (dirname from_path ++ url))
          else MdItem.image alt url
      by_cases hmem2 : normalize (dirname from_path ++ url) ∈ fs
      · rw [hlk, if_pos ⟨humem, hmem2⟩, if_pos hmem2]
      · rw [hlk, if_neg (fun hc => hmem2 hc.2), if_neg hmem2]
  · intro url
    exact relpath_correct (dirname from_path ++ url) (dirname to_path)

/-! ## Move frame property -/

/-- C8: move frame property.  Moving a page file appends the entry to the
destination chapter's entry list and deletes the source file (writing the
rewritten page at the destination), but the source chapter's entry list is
returned unchanged — the moved entry is not removed from it. -/
theorem handle_move_frame (destFolder srcFolder : PPath) (dest src : List String)
    (files : List (PPath × FileC)) (chapter : String) (fc : FileC)
    (hmem : chapter ∈ src)
    (hfile : files.lookup (srcFolder ++ [chapter]) = some fc)
    (hne : srcFolder ++ [chapter] ≠ destFolder ++ [chapter]) :
    ∃ newfiles : List (PPath × FileC),
      handle_move_one destFolder srcFolder dest src files chapter
          = some (dest ++ [chapter], src, newfiles)
        ∧ (srcFolder ++ [chapter]) ∉ newfiles.map Prod.fst
        ∧ (destFolder ++ [chapter]) ∈ newfiles.map Prod.fst := by
  refine ⟨(files.filter fun f => f.1 ≠ srcFolder ++ [chapter])
      ++ [(destFolder ++ [chapter],
        (fc.1, update_images
          ((files.filter fun f => f.1 ≠ srcFolder ++ [chapter]).map
            fun f => normalize f.1)
          (srcFolder ++ [chapter]) (destFolder ++ [chapter]) fc.2))],
    ?_, ?_, ?_⟩
  · rw [handle_move_one, if_pos hmem]
    show (match files.lookup (srcFolder ++ [chapter]) with
      | none => none
      | some fc2 => some (dest ++ [chapter], src,
          (files.filter fun (f : PPath × FileC) => f.1 ≠ srcFolder ++ [chapter])
          ++ [(destFolder ++ [chapter], (fc2.1, update_images
              ((files.filter fun (f : PPath × FileC) =>
                  f.1 ≠ srcFolder ++ [chapter]).map
                fun (f : PPath × FileC) => normalize f.1)
              (srcFolder ++ [chapter]) (destFolder ++ [chapter]) fc2.2))]))
      = _
    rw [hfile]
  · intro hc
    rcases List.mem_map.mp hc with ⟨f, hf, hfe⟩
    rcases List.mem_append.mp hf with h | h
    · have h2 := List.mem_filter.mp h
      have h3 : f.1 ≠ srcFolder ++ [chapter] := by simpa using h2.2
      exact h3 hfe
    · rw [List.mem_singleton] at h
      subst h
      exact hne hfe.symm
  · rw [List.map_append]
    simp

/-- Witness for C8 at a concrete move. -/
theorem handle_move_frame_witness :
    ∃ newfiles : List (PPath × FileC),
      handle_move_one ["book", "dst"] ["book", "src"] ["d.md"]
          ["page.md", "other.md"]
          [(["book", "src", "page.md"], (some [("title", "p")], [MdItem.text "hi"]))]
          "page.md"
        = some (["d.md", "page.md"], ["page.md", "other.md"], newfiles)
      ∧ (["book", "src", "page.md"] : PPath) ∉ newfiles.map Prod.fst
      ∧ (["book", "dst", "page.md"] : PPath) ∈ newfiles.map Prod.fst :=
  handle_move_frame ["book", "dst"] ["book", "src"] ["d.md"]
    ["page.md", "other.md"]
    [(["book", "src", "page.md"], (some [("title", "p")], [MdItem.text "hi"]))]
    "page.md" (some [("title", "p")], [MdItem.text "hi"])
    (by decide) (by decide) (by decide)

/-! ## Statistics lemmas -/

theorem stat_update_invariant (s : Stat) (wc : Nat) (b : Bool)
    (h1 : s.empty_chapters ≤ s.num_chapters)
    (h2 : s.num_chapters = s.empty_chapters → s.total_words = 0) :
    (stat_update s wc b).empty_chapters ≤ (stat_update s wc b).num_chapters
    ∧ ((stat_update s wc b).num_chapters = (stat_update s wc b).empty_chapters
        → (stat_update s wc b).total_words = 0) := by
  rcases s with ⟨n, e, t⟩
  rcases b with _ | _
  · exact ⟨h1, h2⟩
  · rw [show stat_update ⟨n, e, t⟩ wc true
        = if wc < 50 then ⟨n + 1, e + 1, t⟩
          else if wc < 2000 then ⟨n + 1, e + 1, t⟩
          else ⟨n + 1, e, t + wc⟩ from rfl]
    simp only at h1 h2
    split_ifs <;> constructor <;> simp only [] <;> omega

theorem stat_reachable_invariant (s : Stat) (hs : stat_reachable s) :
    s.empty_chapters ≤ s.num_chapters
    ∧ (s.num_chapters = s.empty_chapters → s.total_words = 0) := by
  obtain ⟨l, rfl⟩ := hs
  induction l using List.reverseRecOn with
  | nil => exact ⟨Nat.le_refl 0, fun _ => rfl⟩
  | append_singleton l x ih =>
      rw [List.foldl_append, List.foldl_cons, List.foldl_nil]
      exact stat_update_invariant _ x.1 x.2 ih.1 ih.2

theorem print_estimate_eq (n e t : Nat) :
    print_estimate ⟨n, e, t⟩
      = ((t : ℚ) + (e : ℚ) * (if 0 < (n : ℤ) - (e : ℤ)
            then (t : ℚ) / (((n : ℤ) - (e : ℤ) : ℤ) : ℚ) else 0),
         if 0 < (t : ℚ) + (e : ℚ) * (if 0 < (n : ℤ) - (e : ℤ)
              then (t : ℚ) / (((n : ℤ) - (e : ℤ) : ℤ) : ℚ) else 0)
         then (t : ℚ) * 100 / ((t : ℚ) + (e : ℚ) * (if 0 < (n : ℤ) - (e : ℤ)
              then (t : ℚ) / (((n : ℤ) - (e : ℤ) : ℤ) : ℚ) else 0))
         else 0) := rfl

theorem estimate_spec_eq (n e t : Nat) :
    estimate_spec ⟨n, e, t⟩
      = if 0 < (n : ℤ) - (e : ℤ) then
          (t : ℚ) / ((t : ℚ) + (e : ℚ)
            * ((t : ℚ) / (((n : ℤ) - (e : ℤ) : ℤ) : ℚ))) * 100
        else 0 := rfl

/-- C9: completion estimate.  A chapter page under 2000 words goes to the
empty/short count and adds nothing to the total; one of at least 2000 words
adds its count to the total; on every reachable statistics state the printed
percentage equals the spec's
`total / (total + empty × average) × 100` with result 0 when there are no
counted pages; and a book whose only page has exactly 2500 words reports
total 2500, estimate 2500 and 100%. -/
theorem stat_estimate_correct :
    (∀ (s : Stat) (wc : Nat), wc < 2000 → stat_update s wc true
        = ⟨s.num_chapters + 1, s.empty_chapters + 1, s.total_words⟩)
    ∧ (∀ (s : Stat) (wc : Nat), 2000 ≤ wc → stat_update s wc true
        = ⟨s.num_chapters + 1, s.empty_chapters, s.total_words + wc⟩)
    ∧ (∀ s : Stat, stat_reachable s → (print_estimate s).2 = estimate_spec s)
    ∧ print_estimate (stat_update Stat.init 2500 true) = (2500, 100) := by
  refine ⟨?_, ?_, ?_, ?_⟩
  · intro s wc h
    rcases s with ⟨n, e, t⟩
    rw [show stat_update ⟨n, e, t⟩ wc true
        = if wc < 50 then ⟨n + 1, e + 1, t⟩
          else if wc < 2000 then ⟨n + 1, e + 1, t⟩
          else ⟨n + 1, e, t + wc⟩ from rfl]
    by_cases h1 : wc < 50
    · rw [if_pos h1]
    · rw [if_neg h1, if_pos h]
  · intro s wc h
    rcases s with ⟨n, e, t⟩
    rw [show stat_update ⟨n, e, t⟩ wc true
        = if wc < 50 then ⟨n + 1, e + 1, t⟩
          else if wc < 2000 then ⟨n + 1, e + 1, t⟩
          else ⟨n + 1, e, t + wc⟩ from rfl]
    rw [if_neg (by omega), if_neg (by omega)]
  · intro s hs
    obtain ⟨hinv1, hinv2⟩ := stat_reachable_invariant s hs
    rcases s with ⟨n, e, t⟩
    simp only at hinv1 hinv2
    rw [print_estimate_eq, estimate_spec_eq]
    by_cases hv : 0 < (n : ℤ) - (e : ℤ)
    · rw [if_pos hv]
      simp only [if_pos hv]
      by_cases ht : t = 0
      · subst ht
        simp
      · have htq : 0 < (t : ℚ) := by
          exact_mod_cast Nat.pos_of_ne_zero ht
        have hvq : (0 : ℚ) < (((n : ℤ) - (e : ℤ) : ℤ) : ℚ) := by
          exact_mod_cast hv
        have hql : 0 < (t : ℚ) / (((n : ℤ) - (e : ℤ) : ℤ) : ℚ) :=
          div_pos htq hvq
        have hest : 0 < (t : ℚ) + (e : ℚ)
            * ((t : ℚ) / (((n : ℤ) - (e : ℤ) : ℤ) : ℚ)) := by
          have he0 : (0 : ℚ) ≤ (e : ℚ) := by positivity
          nlinarith
        rw [if_pos hest]
        ring
    · rw [if_neg hv]
      simp only [if_neg hv]
      have ht : t = 0 := hinv2 (by omega)
      subst ht
      simp
  · rw [show stat_update Stat.init 2500 true = ⟨1, 0, 2500⟩ from rfl,
      print_estimate_eq]
    norm_num

/-- Witness for C9: the branch equations and the spec formula discharged at
concrete states, via `stat_estimate_correct`. -/
theorem stat_estimate_correct_witness :
    ((10 : Nat) < 2000 ∧ stat_update ⟨0, 0, 0⟩ 10 true = ⟨1, 1, 0⟩)
    ∧ ((2000 : Nat) ≤ 2500 ∧ stat_update ⟨1, 1, 0⟩ 2500 true = ⟨2, 1, 2500⟩)
    ∧ (stat_reachable (stat_update Stat.init 2500 true)
       ∧ (print_estimate (stat_update Stat.init 2500 true)).2
          = estimate_spec (stat_update Stat.init 2500 true)) :=
  ⟨⟨by decide, stat_estimate_correct.1 ⟨0, 0, 0⟩ 10 (by decide)⟩,
   ⟨by decide, stat_estimate_correct.2.1 ⟨1, 1, 0⟩ 2500 (by decide)⟩,
   ⟨⟨[(2500, true)], rfl⟩,
    stat_estimate_correct.2.2.1 _ ⟨[(2500, true)], rfl⟩⟩⟩

/-! ## The new-page command -/

/-- C10: when every requested page title maps to an already-existing file,
`new_page` returns false for each title, the local `changed` is never
assigned, and `handle_new_page` dies reading it (`UnboundLocalError`) instead
of completing with a warning. -/
theorem handle_new_page_unbound_local (fs chapters : List String)
    (titles : List String) (hne : titles ≠ [])
    (hexist : ∀ t ∈ titles, page_file_name t ∈ fs) :
    handle_new_page fs chapters titles = .error "UnboundLocalError" := by
  have _hne := hne
  have hfold : ∀ l : List String, (∀ t ∈ l, page_file_name t ∈ fs) →
      l.foldl
        (fun (st : List String × List String × Option Bool) title =>
          let np := new_page st.1 st.2.1 title false
          (np.1, np.2.1, if np.2.2 then some true else st.2.2))
        (fs, chapters, none) = (fs, chapters, none) := by
    intro l
    induction l with
    | nil => intro _; rfl
    | cons t rest ih =>
        intro h
        rw [List.foldl_cons]
        have hnp : new_page fs chapters t false = (fs, chapters, false) := by
          rw [new_page, if_pos (h t (by simp))]
        rw [hnp]
        exact ih fun u hu => h u (by simp [hu])
  rw [handle_new_page, hfold titles hexist]

/-- Witness for C10: one title whose page file already exists. -/
theorem handle_new_page_unbound_local_witness :
    (["A Page"] : List String) ≠ []
    ∧ handle_new_page ["a_page.md"] ["a_page.md"] ["A Page"]
        = .error "UnboundLocalError" :=
  ⟨by decide,
   handle_new_page_unbound_local ["a_page.md"] ["a_page.md"] ["A Page"]
     (by decide) (by decide)⟩

end BookPy
